import Mathlib

/-!
Verification development for the FoodWaste Monitor dashboard.

The development shallowly embeds the two numeric subsystems of the
repository:

* the aggregation/derivation layer of `App.tsx`
  (`calculateTotalInventoryValue`, `prepareInventoryTrendData`,
  `prepareExpiryAnalysisData`, the "At Risk Value" stat card), and
* the ensemble forecaster of `WastePredictionModel.ts`
  (`train`, `trainCategoryModel`, `predict`, `updateModel`).

JavaScript numbers are modelled as rationals (`ℚ`); timestamps
(`Date.getTime()`) as integer epoch milliseconds (`ℤ`).  The TensorFlow
and multivariate-linear-regression libraries are external dependencies,
so the fitted components they return are modelled abstractly: every
model operation is parametrised by a `FitOracle` supplying the library's
`fit` and `predict` entry points; theorems hold for every oracle.
-/

/-- An inventory item (`FoodItem` in `App.tsx`).  `expiryDate` holds the
epoch milliseconds produced by `new Date(item.expiryDate).getTime()`. -/
structure FoodItem where
  id : String
  name : String
  quantity : ℚ
  expiryDate : ℤ
  category : String
  costPerKg : ℚ
deriving DecidableEq

/-- The value of one item, `item.quantity * item.costPerKg`. -/
def itemValue (item : FoodItem) : ℚ :=
  item.quantity * item.costPerKg

/-- `calculateTotalInventoryValue` from `App.tsx`:
`inventory.reduce((total, item) => total + item.quantity * item.costPerKg, 0)`. -/
def calculateTotalInventoryValue (inventory : List FoodItem) : ℚ :=
  inventory.foldl (fun total item => total + item.quantity * item.costPerKg) 0

/-- One output row of the category roll-up in `prepareInventoryTrendData`. -/
structure CategoryTotal where
  category : String
  quantity : ℚ
  value : ℚ
deriving DecidableEq

/-- One step of the `reduce` in `prepareInventoryTrendData`: find the first
accumulator row with the item's category and add to it in place, otherwise
push a fresh row at the end (JavaScript `acc.find` + mutation / `acc.push`). -/
def addToCategory (acc : List CategoryTotal) (item : FoodItem) : List CategoryTotal :=
  match acc with
  | [] => [⟨item.category, item.quantity, item.quantity * item.costPerKg⟩]
  | c :: cs =>
      if c.category = item.category then
        { c with
          quantity := c.quantity + item.quantity
          value := c.value + item.quantity * item.costPerKg } :: cs
      else
        c :: addToCategory cs item

/-- `prepareInventoryTrendData` from `App.tsx`: group items by category
(first-occurrence order), summing quantity and value per category. -/
def prepareInventoryTrendData (inventory : List FoodItem) : List CategoryTotal :=
  inventory.foldl addToCategory []

/-- The accumulator of `prepareExpiryAnalysisData`'s `reduce`:
`{ expired: 0, critical: 0, warning: 0, safe: 0 }`. -/
structure ExpiryRanges where
  expired : ℚ
  critical : ℚ
  warning : ℚ
  safe : ℚ
deriving DecidableEq

/-- `Math.ceil((new Date(item.expiryDate).getTime() - now.getTime()) / (1000*60*60*24))`
with `now` the current instant in epoch milliseconds. -/
def daysUntilExpiry (now : ℤ) (item : FoodItem) : ℤ :=
  ⌈((item.expiryDate - now : ℤ) : ℚ) / 86400000⌉

/-- One step of the `reduce` in `prepareExpiryAnalysisData`: classify the item
by `daysUntilExpiry` and accumulate its value into the matching bucket. -/
def classifyItem (now : ℤ) (acc : ExpiryRanges) (item : FoodItem) : ExpiryRanges :=
  if daysUntilExpiry now item ≤ 0 then
    { acc with expired := acc.expired + item.quantity * item.costPerKg }
  else if daysUntilExpiry now item ≤ 3 then
    { acc with critical := acc.critical + item.quantity * item.costPerKg }
  else if daysUntilExpiry now item ≤ 7 then
    { acc with warning := acc.warning + item.quantity * item.costPerKg }
  else
    { acc with safe := acc.safe + item.quantity * item.costPerKg }

/-- `prepareExpiryAnalysisData` from `App.tsx` (the `reduce`; the trailing
`Object.entries` conversion to chart rows is presentation only). -/
def prepareExpiryAnalysisData (now : ℤ) (inventory : List FoodItem) : ExpiryRanges :=
  inventory.foldl (classifyItem now) ⟨0, 0, 0, 0⟩

/-- The "At Risk Value" stat card of `App.tsx`:
`inventory.filter(item => new Date(item.expiryDate) <= addDays(new Date(), 3))
          .reduce((total, item) => total + item.quantity * item.costPerKg, 0)`;
`addDays(now, 3)` is `now + 3` days in epoch milliseconds. -/
def atRiskValue (now : ℤ) (inventory : List FoodItem) : ℚ :=
  (inventory.filter (fun item => item.expiryDate ≤ now + 3 * 86400000)).foldl
    (fun total item => total + item.quantity * item.costPerKg) 0

/-- Total value of a list of items, the mathematical form of the dashboard's
folds: `(l.map itemValue).sum`. -/
def sumItemValue (l : List FoodItem) : ℚ :=
  (l.map itemValue).sum

/-- Sum of the `value` fields of category roll-up rows. -/
def sumCategoryValue (l : List CategoryTotal) : ℚ :=
  (l.map (fun c => c.value)).sum

-- ### The ensemble forecaster (`WastePredictionModel.ts`)

/-- `WastePredictionInput` from `WastePredictionModel.ts`; the optional
`category` models the TypeScript `category?: string`. -/
structure WastePredictionInput where
  dayOfWeek : ℚ
  temperature : ℚ
  humidity : ℚ
  stockLevel : ℚ
  previousDayWaste : ℚ
  category : Option String
deriving DecidableEq

/-- The inline feature extraction `[data.dayOfWeek, data.temperature,
data.humidity, data.stockLevel, data.previousDayWaste]` shared by `train`,
`trainCategoryModel` and `predict`. -/
def toFeatures (d : WastePredictionInput) : List ℚ :=
  [d.dayOfWeek, d.temperature, d.humidity, d.stockLevel, d.previousDayWaste]

/-- JavaScript truthiness of the optional category string: `undefined` and the
empty string are falsy (`input.category && ...`, `.filter(Boolean)`). -/
def categoryTruthy : Option String → Bool
  | none => false
  | some c => c ≠ ""

/-- Interface to the external fitting libraries (`@tensorflow/tfjs` and
`ml-regression-multivariate-linear`).  `NN` is the type of a fitted
`tf.Sequential`, `MLRT` of a fitted `MLR`.  `nnFit` models building, compiling
and fitting the general network (16/8/1 units, 150 epochs, batch 32),
`catFit` the category network (12/6/1 units, 100 epochs, batch 16), and
`mlrFit` the `new MLR(X, y)` constructor.  `nnEval m v` models
`model.predict(tf.tensor2d([v])).dataSync()[0]`, `mlrEval m v` models
`mlr.predict([v])[0][0]`.  This oracle covers the fits' value-level
behaviour, i.e. the executions on which the fitting calls return; the
libraries' exception paths are retained separately by `FitOracleE` and
`trainE` for the failure-semantics claim.  Theorems over this oracle hold for
every value-level behaviour of the libraries. -/
structure FitOracle (NN MLRT : Type) where
  nnFit : List (List ℚ) → List (List ℚ) → NN
  catFit : List (List ℚ) → List (List ℚ) → NN
  mlrFit : List (List ℚ) → List (List ℚ) → MLRT
  nnEval : NN → List ℚ → ℚ
  mlrEval : MLRT → List ℚ → ℚ

/-- The mutable fields of `WastePredictionModel`: `model`, `mlr` and the
`Map<string, tf.Sequential>` of per-category models, embedded as an
insertion-ordered association list like a JavaScript `Map`. -/
structure ModelState (NN MLRT : Type) where
  model : Option NN
  mlr : Option MLRT
  categoryModels : List (String × NN)

/-- The state of a freshly constructed `WastePredictionModel`:
`model = null`, `mlr = null`, `categoryModels = new Map()`. -/
def initialModelState (NN MLRT : Type) : ModelState NN MLRT :=
  { model := none, mlr := none, categoryModels := [] }

/-- Error taxonomy of the spec (§7).  The source's `predict` throws
`new Error('Model not trained')`, embedded as `notTrained`; `validationError`
is the spec's `ValidationError` kind, which no code path of the source
raises; `libraryError` wraps an exception thrown by one of the external
fitting libraries and surfaced unchanged (the spec's `TrainingFailure`). -/
inductive ModelError where
  | notTrained
  | validationError
  | libraryError (message : String)
deriving DecidableEq

/-- The record returned by `predict`. -/
structure PredictionResult where
  nnPrediction : ℚ
  mlrPrediction : ℚ
  categoryPrediction : Option ℚ
  confidence : ℚ
deriving DecidableEq

/-- `Map.prototype.set`: replace the value of an existing key in place,
otherwise append the binding at the end. -/
def mapSet {NN : Type} : List (String × NN) → String → NN → List (String × NN)
  | [], k, v => [(k, v)]
  | p :: ps, k, v => if p.1 = k then (k, v) :: ps else p :: mapSet ps k v

/-- `WastePredictionModel.train`: builds the feature matrix `X` and the 2-D
target vector `y`, fits the linear regression (`this.mlr = new MLR(X, y)`)
and the network (`this.model = tf.sequential(...); this.model.fit(xs, ys)`).
The source itself performs no shape validation and contains no `throw`; this
embedding covers the executions on which both library fits return (the
claims stated over it concern what `train` stores when fitting succeeds while
`trainE` below retains the libraries' exception paths). -/
def train {NN MLRT : Type} (O : FitOracle NN MLRT) (st : ModelState NN MLRT)
    (historicalData : List WastePredictionInput) (wasteAmounts : List ℚ) :
    ModelState NN MLRT :=
  let X := historicalData.map toFeatures
  let y := wasteAmounts.map (fun amount => [amount])
  { st with mlr := some (O.mlrFit X y), model := some (O.nnFit X y) }

/-- `WastePredictionModel.trainCategoryModel`: fits the smaller category
network on the given data and stores it under `category`
(`this.categoryModels.set(category, model)`). -/
def trainCategoryModel {NN MLRT : Type} (O : FitOracle NN MLRT) (st : ModelState NN MLRT)
    (category : String) (data : List WastePredictionInput) (wasteAmounts : List ℚ) :
    ModelState NN MLRT :=
  let X := data.map toFeatures
  let m := O.catFit X (wasteAmounts.map (fun v => [v]))
  { st with categoryModels := mapSet st.categoryModels category m }

/-- `WastePredictionModel.predict`.  Throws (`Except.error`) when `model` or
`mlr` is `null`; otherwise queries both general components, optionally the
per-category component (`input.category && this.categoryModels.has(...)`),
and combines them exactly as the source does:
`mean = predictions.reduce((a, b) => a + b, 0) / predictions.length`,
`variance = predictions.reduce((a, b) => a + (b - mean)**2, 0) / predictions.length`,
`confidence = Math.max(0, 100 - variance * 10)`. -/
def predict {NN MLRT : Type} (O : FitOracle NN MLRT) (st : ModelState NN MLRT)
    (input : WastePredictionInput) : Except ModelError PredictionResult :=
  match st.model, st.mlr with
  | some m, some r =>
      let inputArray := toFeatures input
      let nnResult := O.nnEval m inputArray
      let mlrResult := O.mlrEval r inputArray
      let categoryResult : Option ℚ :=
        match input.category with
        | some c =>
            if c ≠ "" then (st.categoryModels.lookup c).map (fun cm => O.nnEval cm inputArray)
            else none
        | none => none
      let predictions : List ℚ :=
        [nnResult, mlrResult] ++ (match categoryResult with
          | some v => [v]
          | none => [])
      let mean := predictions.foldl (fun a b => a + b) 0 / (predictions.length : ℚ)
      let variance :=
        predictions.foldl (fun a b => a + (b - mean) ^ 2) 0 / (predictions.length : ℚ)
      Except.ok
        { nnPrediction := nnResult
          mlrPrediction := mlrResult
          categoryPrediction := categoryResult
          confidence := max 0 (100 - variance * 10) }
  | _, _ => Except.error ModelError.notTrained

/-- `predict` with the forecaster state threaded explicitly.  The body of the
source's `predict` contains no assignment to `this.model`, `this.mlr` or
`this.categoryModels` (its only mutating calls, `dispose()`, free tensor
memory outside the tracked state), so the method yields its result together
with the state it was given. -/
def predictS {NN MLRT : Type} (O : FitOracle NN MLRT) (st : ModelState NN MLRT)
    (input : WastePredictionInput) :
    Except ModelError (PredictionResult × ModelState NN MLRT) :=
  (predict O st input).map (fun r => (r, st))

/-- First-occurrence deduplication, the iteration order of
`new Set(newData.map(d => d.category).filter(Boolean))`. -/
def dedupFirst : List String → List String
  | [] => []
  | c :: cs => c :: (dedupFirst cs).filter (fun x => x ≠ c)

/-- The truthy categories of a batch in first-occurrence order:
`new Set(newData.map(d => d.category).filter(Boolean))`. -/
def batchCategories (newData : List WastePredictionInput) : List String :=
  dedupFirst (newData.filterMap
    (fun d => match d.category with
      | some c => if c ≠ "" then some c else none
      | none => none))

/-- `WastePredictionModel.updateModel`: retrain the general components on the
new batch, then for each truthy category of the batch collect its samples
(`newData.filter(d => d.category === category)`), re-derive each sample's
waste amount by looking the sample up in the original batch
(`newWasteAmounts[newData.findIndex(nd => nd === categoryData[i])]`; an
out-of-range index yields `undefined`, modelled as `0`), and retrain that
category's component.  JavaScript `===` on objects is reference equality;
samples are compared structurally here, which coincides with the source
whenever the batch holds no duplicated sample object. -/
def updateModel {NN MLRT : Type} (O : FitOracle NN MLRT) (st : ModelState NN MLRT)
    (newData : List WastePredictionInput) (newWasteAmounts : List ℚ) :
    ModelState NN MLRT :=
  let st1 := train O st newData newWasteAmounts
  (batchCategories newData).foldl
    (fun s category =>
      let categoryData := newData.filter (fun d => d.category = some category)
      let categoryWaste := categoryData.map
        (fun d => (newWasteAmounts[newData.findIdx (fun nd => nd = d)]?).getD 0)
      trainCategoryModel O s category categoryData categoryWaste)
    st1

/-- Simple mean of a list of values (`sum / length`; an empty list gives the
rational convention `x / 0 = 0`). -/
def popMean (l : List ℚ) : ℚ := l.sum / (l.length : ℚ)

/-- Population variance of a list of values around `popMean`. -/
def popVariance (l : List ℚ) : ℚ :=
  ((l.map (fun x => (x - popMean l) ^ 2)).sum) / (l.length : ℚ)

/-- The available prediction values of a result, in the order the source
assembles them: `[nnResult, mlrResult]` plus the category value when
present. -/
def availablePredictions (r : PredictionResult) : List ℚ :=
  [r.nnPrediction, r.mlrPrediction] ++ (match r.categoryPrediction with
    | some v => [v]
    | none => [])

/-- The component `updateModel` stores for category `c`: the category network
fitted on the category's samples and the re-derived waste amounts. -/
def catComponent {NN MLRT : Type} (O : FitOracle NN MLRT)
    (newData : List WastePredictionInput) (newWasteAmounts : List ℚ) (c : String) : NN :=
  O.catFit
    ((newData.filter (fun d => d.category = some c)).map toFeatures)
    ((newData.filter (fun d => d.category = some c)).map
      (fun d => [(newWasteAmounts[newData.findIdx (fun nd => nd = d)]?).getD 0]))

-- ### Concrete fixtures for closed checks

/-- A recording oracle for concrete checks: a fitted component remembers the
exact `(X, y)` matrices it was fitted on. -/
def recOracle : FitOracle (List (List ℚ) × List (List ℚ)) Unit where
  nnFit := fun X y => (X, y)
  catFit := fun X y => (X, y)
  mlrFit := fun _ _ => ()
  nnEval := fun _ _ => 0
  mlrEval := fun _ _ => 0

/-- A sample with category "A". -/
def sampleA : WastePredictionInput := ⟨1, 0, 0, 0, 0, some "A"⟩

/-- A second, distinct sample with category "A". -/
def sampleB : WastePredictionInput := ⟨2, 0, 0, 0, 0, some "A"⟩

/-- A forecaster state that already holds a component for category "B". -/
def priorState : ModelState (List (List ℚ) × List (List ℚ)) Unit :=
  { model := none, mlr := none, categoryModels := [("B", ([], []))] }

-- ### Predict on a trained state, and the confidence computation

/-- The confidence value `predict` computes from a list of prediction values,
exactly as written in the source (`reduce`-based mean and variance,
`Math.max(0, 100 - variance * 10)`). -/
def codeConfidence (P : List ℚ) : ℚ :=
  max 0 (100
    - P.foldl (fun a b => a + (b - P.foldl (fun a b => a + b) 0 / (P.length : ℚ)) ^ 2) 0
        / (P.length : ℚ) * 10)

/-- The optional category query of `predict`:
`input.category && this.categoryModels.has(input.category)` guards evaluating
the stored category component. -/
def categoryQuery {NN MLRT : Type} (O : FitOracle NN MLRT) (cats : List (String × NN))
    (input : WastePredictionInput) : Option ℚ :=
  match input.category with
  | some c =>
      if c ≠ "" then (cats.lookup c).map (fun cm => O.nnEval cm (toFeatures input))
      else none
  | none => none

/-- The list of available prediction values `predict` assembles. -/
def predictionsList {NN MLRT : Type} (O : FitOracle NN MLRT) (m : NN) (r0 : MLRT)
    (cats : List (String × NN)) (input : WastePredictionInput) : List ℚ :=
  [O.nnEval m (toFeatures input), O.mlrEval r0 (toFeatures input)] ++
    (match categoryQuery O cats input with
      | some v => [v]
      | none => [])

/-- A constant oracle whose fitted components always predict `5`. -/
def constOracle : FitOracle Unit Unit where
  nnFit := fun _ _ => ()
  catFit := fun _ _ => ()
  mlrFit := fun _ _ => ()
  nnEval := fun _ _ => 5
  mlrEval := fun _ _ => 5

/-- A trained state over the trivial component types. -/
def trainedUnitState : ModelState Unit Unit :=
  { model := some (), mlr := some (), categoryModels := [] }

/-- A trained state that also holds a component for category "A". -/
def trainedCatState : ModelState Unit Unit :=
  { model := some (), mlr := some (), categoryModels := [("A", ())] }

/-- An observation with no category. -/
def sampleNoCat : WastePredictionInput := ⟨1, 2, 3, 4, 5, none⟩

/-- The external fitting libraries with their exception paths retained.
`mlrFit` models `new MLR(X, y)`, which throws on matrices it rejects
(mismatched or empty row counts) before anything is assigned; `nnBuild`
models `tf.sequential({...})` plus `compile` — pure construction of the
untrained network; `nnFit m X y` models `tf.tensor2d(X)/tensor2d(y)` plus
`model.fit`, which may throw after `this.model` already holds the freshly
built network.  Used by the failure-semantics claim about `train`; the
value-level `FitOracle` serves the claims whose content lies where the fits
return. -/
structure FitOracleE (NN MLRT : Type) where
  mlrFit : List (List ℚ) → List (List ℚ) → Except String MLRT
  nnBuild : NN
  nnFit : NN → List (List ℚ) → List (List ℚ) → Except String NN

/-- `WastePredictionModel.train` with the libraries' exception paths
retained.  The source's sequence is: build `X` and `y` (pure), then
`this.mlr = new MLR(X, y)` — a constructor throw propagates before the
assignment, leaving the state unchanged — then
`this.model = tf.sequential(...)` (assigned before any fitting), then
`tensor2d`/`fit` — a throw here propagates with `mlr` fitted and `model`
holding the fresh unfitted network.  The result pairs the state after the
call with the propagated exception, if any.  No branch validates shapes or
raises the spec's `validationError`. -/
def trainE {NN MLRT : Type} (O : FitOracleE NN MLRT) (st : ModelState NN MLRT)
    (historicalData : List WastePredictionInput) (wasteAmounts : List ℚ) :
    ModelState NN MLRT × Option ModelError :=
  let X := historicalData.map toFeatures
  let y := wasteAmounts.map (fun amount => [amount])
  match O.mlrFit X y with
  | Except.error e => (st, some (ModelError.libraryError e))
  | Except.ok mlrC =>
      match O.nnFit O.nnBuild X y with
      | Except.error e =>
          ({ st with mlr := some mlrC, model := some O.nnBuild },
            some (ModelError.libraryError e))
      | Except.ok nnC => ({ st with mlr := some mlrC, model := some nnC }, none)

/-- A fallible oracle modelling the dimension check of the real
`ml-regression-multivariate-linear` constructor: a batch whose `X` and `y`
row counts differ, or whose `y` is empty, is rejected with the library's own
error before anything is fitted; accepted batches record their matrices. -/
def mlrCheckOracle :
    FitOracleE (List (List ℚ) × List (List ℚ)) (List (List ℚ) × List (List ℚ)) where
  mlrFit := fun X y =>
    if X.length = y.length ∧ y ≠ [] then Except.ok (X, y)
    else Except.error "Dimension mismatch"
  nnBuild := ([], [])
  nnFit := fun _ X y => Except.ok (X, y)

/-- A fallible oracle whose fits always succeed, recording their matrices. -/
def recOracleE :
    FitOracleE (List (List ℚ) × List (List ℚ)) (List (List ℚ) × List (List ℚ)) where
  mlrFit := fun X y => Except.ok (X, y)
  nnBuild := ([], [])
  nnFit := fun _ X y => Except.ok (X, y)

-- ### Helper lemmas for the aggregation layer

theorem foldl_add_value (l : List FoodItem) (a : ℚ) :
    l.foldl (fun total item => total + item.quantity * item.costPerKg) a
      = a + sumItemValue l := by
  induction l generalizing a with
  | nil => simp [sumItemValue]
  | cons x xs ih =>
      simp only [List.foldl_cons, ih, sumItemValue, List.map_cons, List.sum_cons, itemValue]
      ring

theorem calculateTotalInventoryValue_eq_sum (inventory : List FoodItem) :
    calculateTotalInventoryValue inventory = sumItemValue inventory := by
  simpa using foldl_add_value inventory 0

theorem sumCategoryValue_addToCategory (acc : List CategoryTotal) (item : FoodItem) :
    sumCategoryValue (addToCategory acc item) = sumCategoryValue acc + itemValue item := by
  induction acc with
  | nil => simp [addToCategory, sumCategoryValue, itemValue]
  | cons c cs ih =>
      by_cases h : c.category = item.category
      · simp only [addToCategory, if_pos h, sumCategoryValue, List.map_cons, List.sum_cons,
          itemValue] at *
        ring
      · simp only [addToCategory, if_neg h, sumCategoryValue, List.map_cons, List.sum_cons,
          itemValue] at *
        rw [ih]
        ring

theorem foldl_addToCategory_sum (inventory : List FoodItem) (acc : List CategoryTotal) :
    sumCategoryValue (inventory.foldl addToCategory acc)
      = sumCategoryValue acc + sumItemValue inventory := by
  induction inventory generalizing acc with
  | nil => simp [sumItemValue]
  | cons x xs ih =>
      simp only [List.foldl_cons, ih, sumCategoryValue_addToCategory,
        sumItemValue, List.map_cons, List.sum_cons, itemValue]
      ring

theorem classifyItem_expired (now : ℤ) (acc : ExpiryRanges) (x : FoodItem) :
    (classifyItem now acc x).expired
      = acc.expired + (if daysUntilExpiry now x ≤ 0 then itemValue x else 0) := by
  unfold classifyItem itemValue
  split_ifs <;> simp

theorem classifyItem_critical (now : ℤ) (acc : ExpiryRanges) (x : FoodItem) :
    (classifyItem now acc x).critical
      = acc.critical
          + (if 0 < daysUntilExpiry now x ∧ daysUntilExpiry now x ≤ 3 then itemValue x else 0) := by
  unfold classifyItem itemValue
  split_ifs <;> simp <;> omega

theorem classifyItem_warning (now : ℤ) (acc : ExpiryRanges) (x : FoodItem) :
    (classifyItem now acc x).warning
      = acc.warning
          + (if 3 < daysUntilExpiry now x ∧ daysUntilExpiry now x ≤ 7 then itemValue x else 0) := by
  unfold classifyItem itemValue
  split_ifs <;> simp <;> omega

theorem classifyItem_safe (now : ℤ) (acc : ExpiryRanges) (x : FoodItem) :
    (classifyItem now acc x).safe
      = acc.safe + (if 7 < daysUntilExpiry now x then itemValue x else 0) := by
  unfold classifyItem itemValue
  split_ifs <;> simp <;> omega

theorem classifyItem_total (now : ℤ) (acc : ExpiryRanges) (x : FoodItem) :
    (classifyItem now acc x).expired + (classifyItem now acc x).critical
        + (classifyItem now acc x).warning + (classifyItem now acc x).safe
      = acc.expired + acc.critical + acc.warning + acc.safe + itemValue x := by
  unfold classifyItem itemValue
  split_ifs <;> simp <;> ring

theorem expiry_fold_expired (now : ℤ) (inventory : List FoodItem) (acc : ExpiryRanges) :
    (inventory.foldl (classifyItem now) acc).expired
      = acc.expired + sumItemValue (inventory.filter (fun i => daysUntilExpiry now i ≤ 0)) := by
  induction inventory generalizing acc with
  | nil => simp [sumItemValue]
  | cons x xs ih =>
      simp only [List.foldl_cons, ih, List.filter_cons]
      by_cases h : daysUntilExpiry now x ≤ 0
      · simp [h, classifyItem_expired, sumItemValue]
        ring
      · simp [h, classifyItem_expired, sumItemValue]

theorem expiry_fold_critical (now : ℤ) (inventory : List FoodItem) (acc : ExpiryRanges) :
    (inventory.foldl (classifyItem now) acc).critical
      = acc.critical + sumItemValue (inventory.filter
          (fun i => 0 < daysUntilExpiry now i ∧ daysUntilExpiry now i ≤ 3)) := by
  induction inventory generalizing acc with
  | nil => simp [sumItemValue]
  | cons x xs ih =>
      simp only [List.foldl_cons, ih, List.filter_cons]
      by_cases h : 0 < daysUntilExpiry now x ∧ daysUntilExpiry now x ≤ 3
      · simp [h, classifyItem_critical, sumItemValue]
        ring
      · simp [h, classifyItem_critical, sumItemValue]

theorem expiry_fold_warning (now : ℤ) (inventory : List FoodItem) (acc : ExpiryRanges) :
    (inventory.foldl (classifyItem now) acc).warning
      = acc.warning + sumItemValue (inventory.filter
          (fun i => 3 < daysUntilExpiry now i ∧ daysUntilExpiry now i ≤ 7)) := by
  induction inventory generalizing acc with
  | nil => simp [sumItemValue]
  | cons x xs ih =>
      simp only [List.foldl_cons, ih, List.filter_cons]
      by_cases h : 3 < daysUntilExpiry now x ∧ daysUntilExpiry now x ≤ 7
      · simp [h, classifyItem_warning, sumItemValue]
        ring
      · simp [h, classifyItem_warning, sumItemValue]

theorem expiry_fold_safe (now : ℤ) (inventory : List FoodItem) (acc : ExpiryRanges) :
    (inventory.foldl (classifyItem now) acc).safe
      = acc.safe + sumItemValue (inventory.filter (fun i => 7 < daysUntilExpiry now i)) := by
  induction inventory generalizing acc with
  | nil => simp [sumItemValue]
  | cons x xs ih =>
      simp only [List.foldl_cons, ih, List.filter_cons]
      by_cases h : 7 < daysUntilExpiry now x
      · simp [h, classifyItem_safe, sumItemValue]
        ring
      · simp [h, classifyItem_safe, sumItemValue]

theorem expiry_fold_total (now : ℤ) (inventory : List FoodItem) (acc : ExpiryRanges) :
    (inventory.foldl (classifyItem now) acc).expired
        + (inventory.foldl (classifyItem now) acc).critical
        + (inventory.foldl (classifyItem now) acc).warning
        + (inventory.foldl (classifyItem now) acc).safe
      = acc.expired + acc.critical + acc.warning + acc.safe + sumItemValue inventory := by
  induction inventory generalizing acc with
  | nil => simp [sumItemValue]
  | cons x xs ih =>
      simp only [List.foldl_cons, ih, sumItemValue, List.map_cons, List.sum_cons]
      have := classifyItem_total now acc x
      unfold sumItemValue at *
      linarith

theorem daysUntilExpiry_le_three_iff (now : ℤ) (item : FoodItem) :
    daysUntilExpiry now item ≤ 3 ↔ item.expiryDate ≤ now + 3 * 86400000 := by
  unfold daysUntilExpiry
  rw [Int.ceil_le, div_le_iff₀ (by norm_num : (0:ℚ) < 86400000)]
  rw [show ((3:ℤ):ℚ) * 86400000 = ((3 * 86400000 : ℤ) : ℚ) by push_cast; ring]
  rw [Int.cast_le]
  omega

theorem sumItemValue_filter_le_three (now : ℤ) (l : List FoodItem) :
    sumItemValue (l.filter (fun i => daysUntilExpiry now i ≤ 3))
      = sumItemValue (l.filter (fun i => daysUntilExpiry now i ≤ 0))
        + sumItemValue (l.filter
            (fun i => 0 < daysUntilExpiry now i ∧ daysUntilExpiry now i ≤ 3)) := by
  induction l with
  | nil => simp [sumItemValue]
  | cons x xs ih =>
      by_cases h0 : daysUntilExpiry now x ≤ 0
      · have h3 : daysUntilExpiry now x ≤ 3 := by omega
        have hn : ¬(0 < daysUntilExpiry now x ∧ daysUntilExpiry now x ≤ 3) := by omega
        rw [List.filter_cons_of_pos (by simpa using h3),
            List.filter_cons_of_pos (by simpa using h0),
            List.filter_cons_of_neg (by simpa using hn)]
        simp only [sumItemValue, List.map_cons, List.sum_cons] at ih ⊢
        rw [ih]
        ring
      · by_cases h3 : daysUntilExpiry now x ≤ 3
        · have hp : 0 < daysUntilExpiry now x ∧ daysUntilExpiry now x ≤ 3 := by omega
          rw [List.filter_cons_of_pos (by simpa using h3),
              List.filter_cons_of_neg (by simpa using h0),
              List.filter_cons_of_pos (by simpa using hp)]
          simp only [sumItemValue, List.map_cons, List.sum_cons] at ih ⊢
          rw [ih]
          ring
        · have hn : ¬(0 < daysUntilExpiry now x ∧ daysUntilExpiry now x ≤ 3) := by omega
          rw [List.filter_cons_of_neg (by simpa using h3),
              List.filter_cons_of_neg (by simpa using h0),
              List.filter_cons_of_neg (by simpa using hn)]
          exact ih

/-- C4: for every inventory snapshot, the sum of the per-category `value`
fields produced by `prepareInventoryTrendData` equals the grand total produced
by `calculateTotalInventoryValue` (sum of `quantity * costPerKg` over all
items). -/
theorem categoryTotals_sum_eq_totalValue (inventory : List FoodItem) :
    sumCategoryValue (prepareInventoryTrendData inventory)
      = calculateTotalInventoryValue inventory := by
  rw [calculateTotalInventoryValue_eq_sum]
  simpa [prepareInventoryTrendData, sumCategoryValue] using
    foldl_addToCategory_sum inventory []

/-- C3: for every inventory snapshot and current instant, `prepareExpiryAnalysisData`
assigns each item's value (`quantity * costPerKg`) to exactly one of the four
buckets — `expired` for ceiling-rounded days-until-expiry ≤ 0, `critical` for
1–3, `warning` for 4–7, `safe` for > 7 (the four filters are mutually exclusive
and exhaustive) — and the four bucket totals sum to
`calculateTotalInventoryValue`. -/
theorem expiry_buckets_partition (now : ℤ) (inventory : List FoodItem) :
    (prepareExpiryAnalysisData now inventory).expired
        = sumItemValue (inventory.filter (fun i => daysUntilExpiry now i ≤ 0))
    ∧ (prepareExpiryAnalysisData now inventory).critical
        = sumItemValue (inventory.filter
            (fun i => 0 < daysUntilExpiry now i ∧ daysUntilExpiry now i ≤ 3))
    ∧ (prepareExpiryAnalysisData now inventory).warning
        = sumItemValue (inventory.filter
            (fun i => 3 < daysUntilExpiry now i ∧ daysUntilExpiry now i ≤ 7))
    ∧ (prepareExpiryAnalysisData now inventory).safe
        = sumItemValue (inventory.filter (fun i => 7 < daysUntilExpiry now i))
    ∧ (prepareExpiryAnalysisData now inventory).expired
        + (prepareExpiryAnalysisData now inventory).critical
        + (prepareExpiryAnalysisData now inventory).warning
        + (prepareExpiryAnalysisData now inventory).safe
        = calculateTotalInventoryValue inventory := by
  refine ⟨?_, ?_, ?_, ?_, ?_⟩
  · simpa [prepareExpiryAnalysisData] using expiry_fold_expired now inventory ⟨0, 0, 0, 0⟩
  · simpa [prepareExpiryAnalysisData] using expiry_fold_critical now inventory ⟨0, 0, 0, 0⟩
  · simpa [prepareExpiryAnalysisData] using expiry_fold_warning now inventory ⟨0, 0, 0, 0⟩
  · simpa [prepareExpiryAnalysisData] using expiry_fold_safe now inventory ⟨0, 0, 0, 0⟩
  · rw [calculateTotalInventoryValue_eq_sum]
    simpa [prepareExpiryAnalysisData] using expiry_fold_total now inventory ⟨0, 0, 0, 0⟩

/-- C5: for every inventory snapshot and current instant, the standalone
"At Risk Value" figure (items whose expiry date is at most 3 days away) equals
the `expired` bucket plus the `critical` bucket of `prepareExpiryAnalysisData`
on the same snapshot at the same instant. -/
theorem atRisk_eq_expired_add_critical (now : ℤ) (inventory : List FoodItem) :
    atRiskValue now inventory
      = (prepareExpiryAnalysisData now inventory).expired
        + (prepareExpiryAnalysisData now inventory).critical := by
  have he : (prepareExpiryAnalysisData now inventory).expired
      = sumItemValue (inventory.filter (fun i => daysUntilExpiry now i ≤ 0)) := by
    simpa [prepareExpiryAnalysisData] using expiry_fold_expired now inventory ⟨0, 0, 0, 0⟩
  have hc : (prepareExpiryAnalysisData now inventory).critical
      = sumItemValue (inventory.filter
          (fun i => 0 < daysUntilExpiry now i ∧ daysUntilExpiry now i ≤ 3)) := by
    simpa [prepareExpiryAnalysisData] using expiry_fold_critical now inventory ⟨0, 0, 0, 0⟩
  have hfilter : inventory.filter (fun item => item.expiryDate ≤ now + 3 * 86400000)
      = inventory.filter (fun i => daysUntilExpiry now i ≤ 3) := by
    apply List.filter_congr
    intro a _
    simp only [decide_eq_decide]
    exact (daysUntilExpiry_le_three_iff now a).symm
  unfold atRiskValue
  rw [foldl_add_value, hfilter, sumItemValue_filter_le_three now inventory, he, hc]
  ring

-- ### Helper lemmas for the forecaster

theorem foldl_add_eq_sum (l : List ℚ) (a : ℚ) :
    l.foldl (fun x b => x + b) a = a + l.sum := by
  induction l generalizing a with
  | nil => simp
  | cons x xs ih =>
      simp only [List.foldl_cons, ih, List.sum_cons]
      ring

theorem foldl_add_sq_eq_sum (l : List ℚ) (mv a : ℚ) :
    l.foldl (fun x b => x + (b - mv) ^ 2) a = a + (l.map (fun b => (b - mv) ^ 2)).sum := by
  induction l generalizing a with
  | nil => simp
  | cons x xs ih =>
      simp only [List.foldl_cons, ih, List.map_cons, List.sum_cons]
      ring

/-- The source's `reduce`-based variance expression equals `popVariance`. -/
theorem code_variance_eq (P : List ℚ) :
    P.foldl (fun a b => a + (b - P.foldl (fun a b => a + b) 0 / (P.length : ℚ)) ^ 2) 0
        / (P.length : ℚ)
      = popVariance P := by
  have h1 : P.foldl (fun a b => a + b) 0 = P.sum := by simpa using foldl_add_eq_sum P 0
  rw [h1, foldl_add_sq_eq_sum, zero_add]
  rfl

theorem popVariance_nonneg (l : List ℚ) : 0 ≤ popVariance l := by
  unfold popVariance
  apply div_nonneg
  · apply List.sum_nonneg
    intro x hx
    simp only [List.mem_map] at hx
    obtain ⟨b, _, rfl⟩ := hx
    positivity
  · positivity

theorem popVariance_eq_zero_of_all_eq (l : List ℚ) (a : ℚ) (ha : a ∈ l)
    (h : ∀ x ∈ l, x = a) : popVariance l = 0 := by
  have hne : l ≠ [] := by
    intro hnil
    rw [hnil] at ha
    exact absurd ha (List.not_mem_nil a)
  have hlen : (l.length : ℚ) ≠ 0 := by
    have := List.length_pos.mpr hne
    positivity
  have hmean : popMean l = a := by
    unfold popMean
    rw [List.sum_eq_card_nsmul l a h, nsmul_eq_mul]
    field_simp
  unfold popVariance
  have hzero : l.map (fun x => (x - popMean l) ^ 2) = l.map (fun _ => 0) :=
    List.map_congr_left (fun x hx => by rw [h x hx, hmean]; ring)
  rw [hzero]
  simp

theorem lookup_cons_self {NN : Type} (k : String) (v : NN) (ps : List (String × NN)) :
    List.lookup k ((k, v) :: ps) = some v := by
  simp [List.lookup]

theorem lookup_cons_of_ne {NN : Type} (k k' : String) (v : NN) (ps : List (String × NN))
    (h : k ≠ k') : List.lookup k ((k', v) :: ps) = List.lookup k ps := by
  simp [List.lookup, beq_eq_false_iff_ne.mpr h]

theorem lookup_mapSet_self {NN : Type} (m : List (String × NN)) (k : String) (v : NN) :
    (mapSet m k v).lookup k = some v := by
  induction m with
  | nil => simp [mapSet, lookup_cons_self]
  | cons p ps ih =>
      obtain ⟨k0, v0⟩ := p
      by_cases h : k0 = k
      · subst h
        simp [mapSet, lookup_cons_self]
      · rw [mapSet, if_neg h, lookup_cons_of_ne _ _ _ _ (Ne.symm h)]
        exact ih

theorem lookup_mapSet_ne {NN : Type} (m : List (String × NN)) (k k' : String) (v : NN)
    (h : k' ≠ k) : (mapSet m k v).lookup k' = m.lookup k' := by
  induction m with
  | nil => rw [mapSet, lookup_cons_of_ne _ _ _ _ h]
  | cons p ps ih =>
      obtain ⟨k0, v0⟩ := p
      by_cases h0 : k0 = k
      · subst h0
        rw [mapSet, if_pos rfl, lookup_cons_of_ne _ _ _ _ h,
          lookup_cons_of_ne _ _ _ _ h]
      · rw [mapSet, if_neg h0]
        by_cases hk : k' = k0
        · subst hk
          rw [lookup_cons_self, lookup_cons_self]
        · rw [lookup_cons_of_ne _ _ _ _ hk, lookup_cons_of_ne _ _ _ _ hk]
          exact ih

theorem mem_dedupFirst (x : String) (l : List String) : x ∈ dedupFirst l ↔ x ∈ l := by
  induction l with
  | nil => simp [dedupFirst]
  | cons c cs ih =>
      simp only [dedupFirst, List.mem_cons, List.mem_filter, ih]
      by_cases h : x = c <;> simp [h, ih]

theorem nodup_dedupFirst (l : List String) : (dedupFirst l).Nodup := by
  induction l with
  | nil => simp [dedupFirst]
  | cons c cs ih =>
      rw [dedupFirst, List.nodup_cons]
      constructor
      · intro hmem
        have := (List.mem_filter.mp hmem).2
        simp at this
      · exact ih.filter _

theorem foldl_ext {α β : Type} (f g : β → α → β) (h : ∀ s c, f s c = g s c) :
    ∀ (l : List α) (s : β), l.foldl f s = l.foldl g s := by
  intro l
  induction l with
  | nil => intro s; rfl
  | cons x xs ih =>
      intro s
      simp only [List.foldl_cons, h, ih]

/-- `updateModel` rewritten with the stored component named explicitly. -/
theorem updateModel_eq {NN MLRT : Type} (O : FitOracle NN MLRT) (st : ModelState NN MLRT)
    (newData : List WastePredictionInput) (newWasteAmounts : List ℚ) :
    updateModel O st newData newWasteAmounts
      = (batchCategories newData).foldl
          (fun s c =>
            { s with categoryModels :=
                mapSet s.categoryModels c (catComponent O newData newWasteAmounts c) })
          (train O st newData newWasteAmounts) := by
  unfold updateModel
  rw [foldl_ext]
  intro s c
  unfold trainCategoryModel catComponent
  simp only [List.map_map, Function.comp]
  rfl

theorem foldl_upsert_model {NN MLRT : Type} (O : FitOracle NN MLRT)
    (newData : List WastePredictionInput) (newWasteAmounts : List ℚ) :
    ∀ (cats : List String) (s : ModelState NN MLRT),
      ((cats.foldl
          (fun s c =>
            { s with categoryModels :=
                mapSet s.categoryModels c (catComponent O newData newWasteAmounts c) })
          s).model = s.model)
      ∧ ((cats.foldl
          (fun s c =>
            { s with categoryModels :=
                mapSet s.categoryModels c (catComponent O newData newWasteAmounts c) })
          s).mlr = s.mlr) := by
  intro cats
  induction cats with
  | nil => intro s; exact ⟨rfl, rfl⟩
  | cons c0 cs ih => intro s; exact ih _

theorem lookup_foldl_upsert {NN MLRT : Type} (O : FitOracle NN MLRT)
    (newData : List WastePredictionInput) (newWasteAmounts : List ℚ) :
    ∀ (cats : List String) (s : ModelState NN MLRT) (c : String), cats.Nodup →
      ((cats.foldl
          (fun s c =>
            { s with categoryModels :=
                mapSet s.categoryModels c (catComponent O newData newWasteAmounts c) })
          s).categoryModels.lookup c)
        = if c ∈ cats then some (catComponent O newData newWasteAmounts c)
          else s.categoryModels.lookup c := by
  intro cats
  induction cats with
  | nil =>
      intro s c _
      simp
  | cons c0 cs ih =>
      intro s c hnd
      obtain ⟨hc0, hnd'⟩ := List.nodup_cons.mp hnd
      rw [List.foldl_cons, ih _ c hnd']
      by_cases h : c = c0
      · subst h
        rw [if_neg hc0, if_pos (List.mem_cons_self c cs)]
        exact lookup_mapSet_self _ _ _
      · by_cases hm : c ∈ cs
        · rw [if_pos hm, if_pos (List.mem_cons_of_mem c0 hm)]
        · rw [if_neg hm, if_neg (by simp [List.mem_cons, h, hm])]
          exact lookup_mapSet_ne _ _ _ _ h

/-- Re-deriving targets by first-occurrence lookup agrees with positional
`zip` pairing whenever the sample list has no duplicates. -/
theorem filter_map_lookup_eq_zip {α : Type} [DecidableEq α] (p : α → Bool) :
    ∀ (xs : List α) (ys : List ℚ), xs.Nodup → xs.length = ys.length →
      ((xs.filter p).map (fun d => (ys[xs.findIdx (fun nd => nd = d)]?).getD 0))
        = ((xs.zip ys).filter (fun q => p q.1)).map (fun q => q.2) := by
  intro xs
  induction xs with
  | nil =>
      intro ys _ _
      simp
  | cons x xs ih =>
      intro ys hnd hlen
      cases ys with
      | nil => simp at hlen
      | cons y ys =>
          obtain ⟨hx, hnd'⟩ := List.nodup_cons.mp hnd
          have hlen' : xs.length = ys.length := by simpa using hlen
          have htail : ∀ d ∈ xs.filter p,
              (((y :: ys)[(x :: xs).findIdx (fun nd => nd = d)]?).getD 0 : ℚ)
                = (ys[xs.findIdx (fun nd => nd = d)]?).getD 0 := by
            intro d hd
            have hdx : ¬(x = d) := by
              intro heq
              exact hx (heq ▸ List.mem_of_mem_filter hd)
            rw [List.findIdx_cons]
            simp [hdx]
          by_cases hp : p x
          · rw [List.filter_cons_of_pos hp, List.zip_cons_cons,
              List.filter_cons_of_pos (by simpa using hp), List.map_cons, List.map_cons]
            congr 1
            · rw [List.findIdx_cons]
              simp
            · rw [List.map_congr_left htail]
              exact ih ys hnd' hlen'
          · rw [List.filter_cons_of_neg hp, List.zip_cons_cons,
              List.filter_cons_of_neg (by simpa using hp)]
            rw [List.map_congr_left htail]
            exact ih ys hnd' hlen'

-- ### The claims about the forecaster

/-- C1 (amended): `train` performs no shape validation of its own and never
fails with the spec's `ValidationError`: every failure it surfaces is an
exception of one of the two library fitting calls, invoked directly on the
(possibly malformed) matrices; when the linear-regression constructor rejects
the batch — as it does for mismatched or empty shapes — that library error
propagates with the forecaster's state left unchanged, and when both fits
accept the batch the general components are overwritten and the per-category
map is untouched. -/
theorem train_no_validation {NN MLRT : Type} (O : FitOracleE NN MLRT)
    (st : ModelState NN MLRT) (historicalData : List WastePredictionInput)
    (wasteAmounts : List ℚ) :
    (∀ st' err, trainE O st historicalData wasteAmounts = (st', some err) →
        err ≠ ModelError.validationError
        ∧ ∃ e, err = ModelError.libraryError e
            ∧ (O.mlrFit (historicalData.map toFeatures)
                  (wasteAmounts.map (fun amount => [amount])) = Except.error e
              ∨ O.nnFit O.nnBuild (historicalData.map toFeatures)
                  (wasteAmounts.map (fun amount => [amount])) = Except.error e))
    ∧ (∀ e, O.mlrFit (historicalData.map toFeatures)
            (wasteAmounts.map (fun amount => [amount])) = Except.error e →
        trainE O st historicalData wasteAmounts
          = (st, some (ModelError.libraryError e)))
    ∧ (∀ mlrC nnC,
        O.mlrFit (historicalData.map toFeatures)
            (wasteAmounts.map (fun amount => [amount])) = Except.ok mlrC →
        O.nnFit O.nnBuild (historicalData.map toFeatures)
            (wasteAmounts.map (fun amount => [amount])) = Except.ok nnC →
        trainE O st historicalData wasteAmounts
          = ({ st with mlr := some mlrC, model := some nnC }, none)) := by
  refine ⟨?_, ?_, ?_⟩
  · intro st' err h
    simp only [trainE] at h
    split at h
    · rename_i e heq
      injection h with ha hb
      injection hb with hb
      subst hb
      exact ⟨by simp, e, rfl, Or.inl heq⟩
    · rename_i mlrC heq
      split at h
      · rename_i e heq'
        injection h with ha hb
        injection hb with hb
        subst hb
        exact ⟨by simp, e, rfl, Or.inr heq'⟩
      · rename_i nnC heq'
        injection h with ha hb
        exact absurd hb (by simp)
  · intro e he
    simp only [trainE]
    rw [he]
  · intro mlrC nnC hm hn
    simp only [trainE]
    rw [hm, hn]

/-- Concrete instantiation of `train_no_validation`: the library-rejection
branch on a malformed batch and the success branch on a well-formed one. -/
theorem train_no_validation_witness :
    trainE mlrCheckOracle
        (initialModelState (List (List ℚ) × List (List ℚ)) (List (List ℚ) × List (List ℚ)))
        [sampleB] []
      = (initialModelState (List (List ℚ) × List (List ℚ)) (List (List ℚ) × List (List ℚ)),
          some (ModelError.libraryError "Dimension mismatch"))
    ∧ trainE recOracleE
        (initialModelState (List (List ℚ) × List (List ℚ)) (List (List ℚ) × List (List ℚ)))
        [sampleA] [5]
      = ({ model := some ([[1, 0, 0, 0, 0]], [[5]]),
           mlr := some ([[1, 0, 0, 0, 0]], [[5]]),
           categoryModels := [] }, none) :=
  ⟨(train_no_validation mlrCheckOracle _ [sampleB] []).2.1 "Dimension mismatch" rfl,
   (train_no_validation recOracleE _ [sampleA] [5]).2.2
     ([[1, 0, 0, 0, 0]], [[5]]) ([[1, 0, 0, 0, 0]], [[5]]) rfl rfl⟩

/-- C1 (counterexample): at the mismatched-length, empty-target batch
`([sampleA], [])` — the linear-regression constructor rejecting the malformed
matrices exactly as the real library does — `train` fails with the library's
own dimension error, raised from within the fitting call on those matrices
and not a `ValidationError`, and the forecaster's state is left unchanged. -/
theorem train_library_error_counterexample :
    trainE mlrCheckOracle
        (initialModelState (List (List ℚ) × List (List ℚ)) (List (List ℚ) × List (List ℚ)))
        [sampleA] []
      = (initialModelState (List (List ℚ) × List (List ℚ)) (List (List ℚ) × List (List ℚ)),
          some (ModelError.libraryError "Dimension mismatch"))
    ∧ mlrCheckOracle.mlrFit ([sampleA].map toFeatures)
        (([] : List ℚ).map (fun amount => [amount]))
      = Except.error "Dimension mismatch"
    ∧ ModelError.libraryError "Dimension mismatch" ≠ ModelError.validationError :=
  ⟨rfl, rfl, by simp⟩

/-- C6: for every observation and every oracle, `predict` on a forecaster
whose general components (network and linear regressor) are absent fails with
`notTrained`, an error kind distinct from the validation kind. -/
theorem predict_untrained_notTrained {NN MLRT : Type} (O : FitOracle NN MLRT)
    (st : ModelState NN MLRT) (input : WastePredictionInput)
    (hm : st.model = none) (hr : st.mlr = none) :
    predict O st input = Except.error ModelError.notTrained
    ∧ ModelError.notTrained ≠ ModelError.validationError := by
  obtain ⟨mo, ml, cats⟩ := st
  obtain rfl : mo = none := hm
  obtain rfl : ml = none := hr
  exact ⟨rfl, by decide⟩

/-- Concrete instantiation of `predict_untrained_notTrained` on a freshly
constructed forecaster. -/
theorem predict_untrained_notTrained_witness :
    predict recOracle (initialModelState (List (List ℚ) × List (List ℚ)) Unit) sampleA
      = Except.error ModelError.notTrained
    ∧ ModelError.notTrained ≠ ModelError.validationError :=
  predict_untrained_notTrained recOracle _ sampleA rfl rfl

/-- C9: for every batch and every category key, `updateModel` leaves the
key's component unchanged when the key is not a (truthy) category of the
batch, and upserts it — overwriting any prior component for that key — when
it is. -/
theorem updateModel_category_frame {NN MLRT : Type} (O : FitOracle NN MLRT)
    (st : ModelState NN MLRT) (newData : List WastePredictionInput)
    (newWasteAmounts : List ℚ) (c : String) :
    (c ∉ batchCategories newData →
      (updateModel O st newData newWasteAmounts).categoryModels.lookup c
        = st.categoryModels.lookup c)
    ∧ (c ∈ batchCategories newData →
      (updateModel O st newData newWasteAmounts).categoryModels.lookup c
        = some (catComponent O newData newWasteAmounts c)) := by
  have h := lookup_foldl_upsert O newData newWasteAmounts (batchCategories newData)
    (train O st newData newWasteAmounts) c (nodup_dedupFirst _)
  rw [updateModel_eq]
  constructor
  · intro hc
    rw [h, if_neg hc]
    rfl
  · intro hc
    rw [h, if_pos hc]

/-- Concrete instantiation of `updateModel_category_frame`: a batch containing
only category "A" upserts "A" and leaves the prior "B" component untouched. -/
theorem updateModel_category_frame_witness :
    (updateModel recOracle priorState [sampleA] [5]).categoryModels.lookup "B"
      = priorState.categoryModels.lookup "B"
    ∧ (updateModel recOracle priorState [sampleA] [5]).categoryModels.lookup "A"
      = some (catComponent recOracle [sampleA] [5] "A") :=
  ⟨(updateModel_category_frame recOracle priorState [sampleA] [5] "B").1 (by decide),
   (updateModel_category_frame recOracle priorState [sampleA] [5] "A").2 (by decide)⟩

/-- C7 (amended): when the batch contains no duplicated sample value,
`updateModel` retrains the general components from scratch on exactly the
supplied batch and, for each truthy category of the batch, upserts that
category's component fitted on exactly the category's samples, each paired
positionally (via `zip`) with the target at the same index in the original
batch; samples with no (or empty-string) category are excluded from category
retraining.  With duplicated samples the source's first-occurrence lookup
departs from positional pairing (see the counterexample). -/
theorem updateModel_pairing_of_nodup {NN MLRT : Type} (O : FitOracle NN MLRT)
    (st : ModelState NN MLRT) (newData : List WastePredictionInput)
    (newWasteAmounts : List ℚ) (c : String)
    (hnd : newData.Nodup) (hlen : newData.length = newWasteAmounts.length)
    (hc : c ∈ batchCategories newData) :
    (updateModel O st newData newWasteAmounts).model
        = some (O.nnFit (newData.map toFeatures)
            (newWasteAmounts.map (fun amount => [amount])))
    ∧ (updateModel O st newData newWasteAmounts).mlr
        = some (O.mlrFit (newData.map toFeatures)
            (newWasteAmounts.map (fun amount => [amount])))
    ∧ (updateModel O st newData newWasteAmounts).categoryModels.lookup c
        = some (O.catFit
            ((newData.filter (fun d => d.category = some c)).map toFeatures)
            (((newData.zip newWasteAmounts).filter
                (fun q => q.1.category = some c)).map (fun q => [q.2]))) := by
  rw [updateModel_eq]
  obtain ⟨hmo, hml⟩ := foldl_upsert_model O newData newWasteAmounts
    (batchCategories newData) (train O st newData newWasteAmounts)
  refine ⟨by rw [hmo]; rfl, by rw [hml]; rfl, ?_⟩
  have hnodup : (batchCategories newData).Nodup := nodup_dedupFirst _
  rw [lookup_foldl_upsert O newData newWasteAmounts (batchCategories newData)
    (train O st newData newWasteAmounts) c hnodup, if_pos hc]
  unfold catComponent
  have hmaps : ((newData.filter (fun d => d.category = some c)).map
        (fun d => [(newWasteAmounts[newData.findIdx (fun nd => nd = d)]?).getD 0]))
      = ((newData.filter (fun d => d.category = some c)).map
          (fun d => (newWasteAmounts[newData.findIdx (fun nd => nd = d)]?).getD 0)).map
          (fun v => [v]) := by
    rw [List.map_map]
    rfl
  rw [hmaps, filter_map_lookup_eq_zip _ newData newWasteAmounts hnd hlen, List.map_map]
  rfl

/-- Concrete instantiation of `updateModel_pairing_of_nodup` on a
duplicate-free two-sample batch of category "A". -/
theorem updateModel_pairing_of_nodup_witness :
    (updateModel recOracle (initialModelState (List (List ℚ) × List (List ℚ)) Unit)
        [sampleA, sampleB] [1, 2]).categoryModels.lookup "A"
      = some (recOracle.catFit
          (([sampleA, sampleB].filter (fun d => d.category = some "A")).map toFeatures)
          ((([sampleA, sampleB].zip [1, 2]).filter
              (fun q => q.1.category = some "A")).map (fun q => [q.2]))) :=
  (updateModel_pairing_of_nodup recOracle _ [sampleA, sampleB] [1, 2] "A"
      (by decide) (by decide) (by decide)).2.2

/-- C7 (counterexample): with the duplicated batch `[sampleA, sampleA]` and
targets `[1, 2]`, the stored "A" component is fitted on targets `[[1], [1]]`
— the first-occurrence lookup pairs both copies of the sample with target `1`
— and not on the positionally paired targets `[[1], [2]]` that the claim
requires. -/
theorem updateModel_pairing_counterexample :
    (updateModel recOracle (initialModelState (List (List ℚ) × List (List ℚ)) Unit)
        [sampleA, sampleA] [1, 2]).categoryModels.lookup "A"
      = some ([[1, 0, 0, 0, 0], [1, 0, 0, 0, 0]], [[1], [1]])
    ∧ (updateModel recOracle (initialModelState (List (List ℚ) × List (List ℚ)) Unit)
        [sampleA, sampleA] [1, 2]).categoryModels.lookup "A"
      ≠ some (recOracle.catFit
          (([sampleA, sampleA].filter (fun d => d.category = some "A")).map toFeatures)
          ((([sampleA, sampleA].zip [1, 2]).filter
              (fun q => q.1.category = some "A")).map (fun q => [q.2]))) := by
  constructor
  · decide
  · decide

/-- `predict` on a trained state, written with the helper definitions. -/
theorem predict_trained {NN MLRT : Type} (O : FitOracle NN MLRT) (m : NN) (r0 : MLRT)
    (cats : List (String × NN)) (input : WastePredictionInput) :
    predict O ⟨some m, some r0, cats⟩ input
      = Except.ok
          { nnPrediction := O.nnEval m (toFeatures input)
            mlrPrediction := O.mlrEval r0 (toFeatures input)
            categoryPrediction := categoryQuery O cats input
            confidence := codeConfidence (predictionsList O m r0 cats input) } := rfl

/-- The confidence computed by the source's code satisfies the spec's
description and bounds. -/
theorem confidence_spec_core (P : List ℚ) (hP : P ≠ []) :
    codeConfidence P = max 0 (100 - popVariance P * 10)
    ∧ 0 ≤ codeConfidence P ∧ codeConfidence P ≤ 100
    ∧ ((∀ x ∈ P, ∀ y ∈ P, x = y) → codeConfidence P = 100) := by
  have hv : codeConfidence P = max 0 (100 - popVariance P * 10) := by
    unfold codeConfidence
    rw [code_variance_eq]
  refine ⟨hv, ?_, ?_, ?_⟩
  · rw [hv]
    exact le_max_left _ _
  · rw [hv]
    apply max_le (by norm_num)
    have := popVariance_nonneg P
    linarith
  · intro hall
    obtain ⟨a, ha⟩ : ∃ a, a ∈ P := List.exists_mem_of_ne_nil P hP
    have hz : popVariance P = 0 :=
      popVariance_eq_zero_of_all_eq P a ha (fun x hx => hall x hx a ha)
    rw [hv, hz]
    norm_num

/-- C2: on every trained forecaster, `predict` succeeds and the returned
confidence equals `max(0, 100 − V·10)` where `V` is the population variance of
the available prediction values around their simple mean; consequently
confidence always lies in `[0, 100]`, and equals exactly `100` whenever all
available prediction values are identical. -/
theorem predict_confidence_spec {NN MLRT : Type} (O : FitOracle NN MLRT)
    (st : ModelState NN MLRT) (input : WastePredictionInput) (m : NN) (r0 : MLRT)
    (hm : st.model = some m) (hr : st.mlr = some r0) :
    ∃ res, predict O st input = Except.ok res
      ∧ res.confidence = max 0 (100 - popVariance (availablePredictions res) * 10)
      ∧ 0 ≤ res.confidence ∧ res.confidence ≤ 100
      ∧ ((∀ x ∈ availablePredictions res, ∀ y ∈ availablePredictions res, x = y) →
          res.confidence = 100) := by
  obtain ⟨mo, ml, cats⟩ := st
  obtain rfl : mo = some m := hm
  obtain rfl : ml = some r0 := hr
  have hne : predictionsList O m r0 cats input ≠ [] := by
    unfold predictionsList
    simp
  obtain ⟨h1, h2, h3, h4⟩ := confidence_spec_core (predictionsList O m r0 cats input) hne
  exact ⟨_, predict_trained O m r0 cats input, h1, h2, h3, h4⟩

/-- Concrete instantiation of `predict_confidence_spec` with a constant
oracle: both estimators return `5`, so the confidence is exactly `100`. -/
theorem predict_confidence_spec_witness :
    ∃ res, predict constOracle trainedUnitState sampleNoCat = Except.ok res
      ∧ res.confidence = max 0 (100 - popVariance (availablePredictions res) * 10)
      ∧ 0 ≤ res.confidence ∧ res.confidence ≤ 100
      ∧ ((∀ x ∈ availablePredictions res, ∀ y ∈ availablePredictions res, x = y) →
          res.confidence = 100) :=
  predict_confidence_spec constOracle trainedUnitState sampleNoCat () () rfl rfl

/-- C8: on every trained forecaster, `predict` succeeds — a missing category
component is silently omitted, never an error — and the returned
`categoryPrediction` is present iff the observation's category is a truthy
string and the per-category map holds a component for it. -/
theorem predict_categoryPrediction_iff {NN MLRT : Type} (O : FitOracle NN MLRT)
    (st : ModelState NN MLRT) (input : WastePredictionInput) (m : NN) (r0 : MLRT)
    (hm : st.model = some m) (hr : st.mlr = some r0) :
    ∃ res, predict O st input = Except.ok res
      ∧ (res.categoryPrediction.isSome = true
          ↔ ∃ c, input.category = some c ∧ c ≠ ""
              ∧ (st.categoryModels.lookup c).isSome = true) := by
  obtain ⟨mo, ml, cats⟩ := st
  obtain rfl : mo = some m := hm
  obtain rfl : ml = some r0 := hr
  refine ⟨_, predict_trained O m r0 cats input, ?_⟩
  show (categoryQuery O cats input).isSome = true ↔ _
  cases hcat : input.category with
  | none =>
      unfold categoryQuery
      rw [hcat]
      simp
  | some c =>
      have hq : categoryQuery O cats input
          = if c ≠ "" then (cats.lookup c).map (fun cm => O.nnEval cm (toFeatures input))
            else none := by
        unfold categoryQuery
        rw [hcat]
      rw [hq]
      by_cases hc : c = ""
      · subst hc
        simp
      · rw [if_pos hc]
        constructor
        · intro hs
          refine ⟨c, rfl, hc, ?_⟩
          cases hlk : List.lookup c cats with
          | none =>
              rw [hlk] at hs
              simp at hs
          | some v => simp [hlk]
        · rintro ⟨c', hcc, hne, hs⟩
          injection hcc with hcc
          subst hcc
          have hs' : (List.lookup c cats).isSome = true := hs
          cases hlk : List.lookup c cats with
          | none =>
              rw [hlk] at hs'
              simp at hs'
          | some v => rfl

/-- Concrete instantiation of `predict_categoryPrediction_iff` on a state
holding a component for the observation's category "A". -/
theorem predict_categoryPrediction_iff_witness :
    ∃ res, predict constOracle trainedCatState sampleA = Except.ok res
      ∧ (res.categoryPrediction.isSome = true
          ↔ ∃ c, sampleA.category = some c ∧ c ≠ ""
              ∧ (trainedCatState.categoryModels.lookup c).isSome = true) :=
  predict_categoryPrediction_iff constOracle trainedCatState sampleA () () rfl rfl

/-- C10: `predict` never mutates the forecaster's state: whenever the
state-threaded `predictS` succeeds, the state it returns is the state it was
given — general network, linear component and per-category map included — and
repeating the call on that state yields the identical outcome. -/
theorem predict_preserves_state {NN MLRT : Type} (O : FitOracle NN MLRT)
    (st st' : ModelState NN MLRT) (input : WastePredictionInput)
    (res : PredictionResult)
    (h : predictS O st input = Except.ok (res, st')) :
    st' = st ∧ predictS O st' input = Except.ok (res, st') := by
  unfold predictS at h ⊢
  cases hp : predict O st input with
  | error e =>
      rw [hp] at h
      simp [Except.map] at h
  | ok r =>
      rw [hp] at h
      simp only [Except.map] at h
      injection h with h
      injection h with h1 h2
      subst h2
      subst h1
      rw [hp]
      exact ⟨rfl, rfl⟩

/-- Concrete instantiation of `predict_preserves_state` on a trained state. -/
theorem predict_preserves_state_witness :
    trainedUnitState = trainedUnitState
    ∧ predictS constOracle trainedUnitState sampleNoCat
        = Except.ok
            ({ nnPrediction := 5, mlrPrediction := 5,
               categoryPrediction := categoryQuery constOracle [] sampleNoCat,
               confidence :=
                 codeConfidence (predictionsList constOracle () () [] sampleNoCat) },
              trainedUnitState) :=
  predict_preserves_state constOracle trainedUnitState trainedUnitState sampleNoCat
    { nnPrediction := 5, mlrPrediction := 5,
      categoryPrediction := categoryQuery constOracle [] sampleNoCat,
      confidence := codeConfidence (predictionsList constOracle () () [] sampleNoCat) }
    rfl
